import Mathlib

/-!
# Verification of the stock-performance pipeline (`company_performance.py`)

Shallow embedding of the pipeline: CSV loading (`read_csv_safe`), per-record
return computation (`compute_return`), ranking (`process_all`), sector
aggregation (`aggregrate_by_sector`), and CSV export (`export_csv`), together
with the `__main__` control flow.

Modelling conventions:
* Python floats are modelled as rationals (`ℚ`); Python's `round(x, 2)` is
  modelled as round-half-to-even at two decimal places (`round2`).
* A CSV price field is a `Cell`: the empty string (falsy in Python, so caught
  by the `if not start_price` check), a non-empty string rejected by
  `float()` (raising `ValueError`), or a non-empty string parsing to a value.
* A data row carries the four required columns `Stock`, `Sector`,
  `PriceStart`, `PriceEnd` (the header-delimited structure the program
  expects; extra columns are ignored by the code).
* Opening the source file has three outcomes (`Source`): it opens and yields
  rows, it raises `FileNotFoundError` (the only exception the code catches),
  or it raises some other `OSError` such as `PermissionError`, which the code
  does not catch; the uncaught case is `Except.error`.
* `str.strip()` is modelled by `pyStrip`: dropping whitespace from both ends.
-/

namespace StockAnalysis

/-- A CSV cell holding a price field, abstracting the pair of the raw string
and the outcome of Python's `float()` on it. `empty` is the empty string
(falsy), `invalid` a non-empty string on which `float()` raises `ValueError`,
`num v` a non-empty string parsing to the value `v`. -/
inductive Cell where
  | empty
  | invalid
  | num (v : ℚ)
deriving DecidableEq

/-- One raw CSV data row with the four required columns, as produced by
`csv.DictReader` for a well-formed row. -/
structure Row where
  Stock : String
  Sector : String
  PriceStart : Cell
  PriceEnd : Cell
deriving DecidableEq

/-- A validated record as built by `read_csv_safe`:
`{'Stock': name, 'Sector': sector, 'PriceStart': ..., 'PriceEnd': ...}`. -/
structure StockRec where
  Stock : String
  Sector : String
  PriceStart : ℚ
  PriceEnd : ℚ
deriving DecidableEq

/-- A record after `compute_return` attached the `'Return'` key. -/
structure CStock where
  Stock : String
  Sector : String
  PriceStart : ℚ
  PriceEnd : ℚ
  Return : ℚ
deriving DecidableEq

/-- Round-half-to-even to the nearest integer, the tie-breaking rule of
Python's `round`. -/
def roundHalfEven (q : ℚ) : ℤ :=
  if q - ⌊q⌋ < 1/2 then ⌊q⌋
  else if 1/2 < q - ⌊q⌋ then ⌊q⌋ + 1
  else if ⌊q⌋ % 2 = 0 then ⌊q⌋ else ⌊q⌋ + 1

/-- Python's `round(x, 2)`. -/
def round2 (q : ℚ) : ℚ := (roundHalfEven (q * 100) : ℚ) / 100

/-- Drop whitespace characters from both ends of a character list. -/
def stripList (l : List Char) : List Char :=
  ((l.dropWhile Char.isWhitespace).reverse.dropWhile Char.isWhitespace).reverse

/-- Python's `str.strip()` with no argument: remove leading and trailing
whitespace. -/
def pyStrip (s : String) : String := String.mk (stripList s.data)

/-- The diagnostics `read_csv_safe` prints. -/
inductive Diag where
  | missingPrices (r : Row)
  | invalidRow (r : Row)
  | fileNotFound (source : String)
deriving DecidableEq

/-- The outcome of opening and reading the source file: it yields data rows,
it raises `FileNotFoundError`, or it raises another `OSError` (permission,
I/O failure, ...). -/
inductive Source where
  | ok (rows : List Row)
  | notFound
  | ioError
deriving DecidableEq

/-- The body of the `for row in reader` loop of `read_csv_safe`, for one row:
returns the record appended to `stocks` (if any) and the diagnostic printed
(if any). The checks follow the code's order: first
`if not start_price or not end_price` (empty fields), then
`float(start_price)`, then `float(end_price)` (a `ValueError` prints
"Skipping invalid row"), and finally the `start_price > 0 and end_price > 0`
guard, whose failure appends nothing and prints nothing. -/
def parseRow (r : Row) : Option StockRec × Option Diag :=
  match r.PriceStart, r.PriceEnd with
  | Cell.empty, _ => (none, some (Diag.missingPrices r))
  | _, Cell.empty => (none, some (Diag.missingPrices r))
  | Cell.invalid, _ => (none, some (Diag.invalidRow r))
  | _, Cell.invalid => (none, some (Diag.invalidRow r))
  | Cell.num sp, Cell.num ep =>
      if 0 < sp ∧ 0 < ep then
        (some ⟨pyStrip r.Stock, pyStrip r.Sector, sp, ep⟩, none)
      else (none, none)

/-- The row loop of `read_csv_safe`: accumulates the valid records in source
order together with the printed diagnostics. -/
def loadRows : List Row → List StockRec × List Diag
  | [] => ([], [])
  | r :: rest =>
      ((parseRow r).1.toList ++ (loadRows rest).1,
       (parseRow r).2.toList ++ (loadRows rest).2)

/-- `read_csv_safe(filename)`. Only `FileNotFoundError` is caught (printing
"File not found" and returning the empty list); any other `OSError` raised by
`open`/reading propagates to the caller, modelled as `Except.error ()`. -/
def read_csv_safe (filename : String) (src : Source) :
    Except Unit (List StockRec × List Diag) :=
  match src with
  | Source.ok rows => Except.ok (loadRows rows)
  | Source.notFound => Except.ok ([], [Diag.fileNotFound filename])
  | Source.ioError => Except.error ()

/-- A raw data row exactly as `csv.DictReader` yields it when the header has
the four required columns: a short data row (fewer fields than the header)
leaves its trailing fields at `restval = None`, modelled by `none` for the
text columns. A price field that is `None` is falsy in the
`if not start_price or not end_price` check exactly like the empty string,
so `Cell.empty` already covers it. -/
structure RawRow where
  Stock : Option String
  Sector : Option String
  PriceStart : Cell
  PriceEnd : Cell
deriving DecidableEq

/-- The loop body of `read_csv_safe` on a raw row. `row['Stock'].strip()`
(and then `row['Sector'].strip()`) raises `AttributeError` when the field is
`None`; `AttributeError` is not in the `except (ValueError, KeyError)`
clause, so it is uncaught (`Except.error`). With both texts present the row
is handled exactly as `parseRow`. -/
def parseRawRow (r : RawRow) : Except Unit (Option StockRec × Option Diag) :=
  match r.Stock, r.Sector with
  | some st, some se => Except.ok (parseRow ⟨st, se, r.PriceStart, r.PriceEnd⟩)
  | _, _ => Except.error ()

/-- The row loop of `read_csv_safe` over raw rows: an uncaught per-row
exception aborts the whole load (the exception propagates out of the `for`
loop and out of the function). -/
def loadRawRows : List RawRow → Except Unit (List StockRec × List Diag)
  | [] => Except.ok ([], [])
  | r :: rest =>
      match parseRawRow r with
      | Except.error e => Except.error e
      | Except.ok p =>
          match loadRawRows rest with
          | Except.error e => Except.error e
          | Except.ok q => Except.ok (p.1.toList ++ q.1, p.2.toList ++ q.2)

/-- The outcomes of opening the source file, at raw-row granularity. -/
inductive RawSource where
  | ok (rows : List RawRow)
  | notFound
  | ioError
deriving DecidableEq

/-- `read_csv_safe(filename)` at raw-row granularity: the same function as
`read_csv_safe`, additionally modelling short data rows (`restval = None`),
whose `AttributeError` is not absorbed. -/
def read_csv_safe_raw (filename : String) (src : RawSource) :
    Except Unit (List StockRec × List Diag) :=
  match src with
  | RawSource.ok rows => loadRawRows rows
  | RawSource.notFound => Except.ok ([], [Diag.fileNotFound filename])
  | RawSource.ioError => Except.error ()

/-- A well-formed row (all four fields present) viewed as a raw row. -/
def rowToRaw (r : Row) : RawRow :=
  ⟨some r.Stock, some r.Sector, r.PriceStart, r.PriceEnd⟩

/-- `compute_return(stock)`: attaches
`stock['Return'] = round(((end - start) / start) * 100, 2)`. Python raises
`ZeroDivisionError` when `start == 0`, modelled by `none`. -/
def compute_return (s : StockRec) : Option CStock :=
  if s.PriceStart = 0 then none
  else
    some ⟨s.Stock, s.Sector, s.PriceStart, s.PriceEnd,
          round2 (((s.PriceEnd - s.PriceStart) / s.PriceStart) * 100)⟩

/-- `process_all(data) = sorted(data, key=lambda x: x['Return'], reverse=True)`.
Python's `sorted` is a stable sort; with `reverse=True` it keeps `a` before
`b` exactly when `a['Return'] >= b['Return']`, which is the comparison given
to `mergeSort` (itself a stable sort, hence extensionally the same function). -/
def process_all (data : List CStock) : List CStock :=
  data.mergeSort (fun a b => decide (b.Return ≤ a.Return))

/-- A running aggregation entry `{'total': ..., 'count': ...}`. -/
structure Entry where
  total : ℚ
  count : ℕ
deriving DecidableEq

/-- A finalized aggregation entry
`{'total': ..., 'count': ..., 'avg_return': ...}`. -/
structure FinalEntry where
  total : ℚ
  count : ℕ
  avg_return : ℚ
deriving DecidableEq

/-- Folding one record into the summary dict: create
`{'total': 0, 'count': 0}` on first sight of the sector key (Python dicts
append new keys at the end, in insertion order), then add the record's return
to `total` and 1 to `count`. The summary is modelled as an association list
in dict insertion order with unique keys. -/
def addStock : List (String × Entry) → String → ℚ → List (String × Entry)
  | [], sec, ret => [(sec, ⟨0 + ret, 0 + 1⟩)]
  | (k, e) :: rest, sec, ret =>
      if k = sec then (k, ⟨e.total + ret, e.count + 1⟩) :: rest
      else (k, e) :: addStock rest sec ret

/-- `aggregrate_by_sector(data)`: fold every record into its sector's entry,
then compute `avg_return = round(total / count, 2)` for every sector. -/
def aggregrate_by_sector (data : List CStock) : List (String × FinalEntry) :=
  (data.foldl (fun acc s => addStock acc s.Sector s.Return) []).map
    (fun p => (p.1, ⟨p.2.total, p.2.count, round2 (p.2.total / (p.2.count : ℚ))⟩))

/-- The number of input records carrying a given sector label (exact,
case-sensitive text equality). -/
def sectorCount (data : List CStock) (sec : String) : ℕ :=
  (data.filter (fun s => s.Sector = sec)).length

/-- The sum of the `Return` values of the input records carrying a given
sector label. -/
def sectorTotal (data : List CStock) (sec : String) : ℚ :=
  ((data.filter (fun s => s.Sector = sec)).map (fun s => s.Return)).sum

/-- The data rows of the file written by `export_csv(data)`, as seen by a
subsequent `csv.DictReader`: one row per record, prices written with `str()`
(which round-trips floats exactly, always producing a non-empty numeric
string). The extra `Return` column of the exported file is ignored by
`read_csv_safe`, which only reads the four columns modelled in `Row`. -/
def export_rows (data : List CStock) : List Row :=
  data.map (fun c => ⟨c.Stock, c.Sector, Cell.num c.PriceStart, Cell.num c.PriceEnd⟩)

/-- The `Return` column values written by `export_csv(data)`. -/
def export_returns (data : List CStock) : List ℚ := data.map (fun c => c.Return)

/-- The invariant of a fully computed record flowing through the pipeline:
positive prices, `strip()`-stable texts, and a `Return` value carrying the
computed rounded percentage change. -/
def goodC (c : CStock) : Prop :=
  0 < c.PriceStart ∧ 0 < c.PriceEnd ∧
  pyStrip c.Stock = c.Stock ∧ pyStrip c.Sector = c.Sector ∧
  c.Return = round2 (((c.PriceEnd - c.PriceStart) / c.PriceStart) * 100)

/-- How the process ends in the `__main__` block: `crashed` is an uncaught
exception propagating out of the script (abnormal termination), `earlyExit`
the explicit `exit()` after "No valid data found." (`exit()` raises
`SystemExit` with code 0), `completed` a full run producing the ranked data
and the sector summary. -/
inductive MainOutcome where
  | crashed
  | earlyExit (code : ℕ)
  | completed (ranked : List CStock) (summary : List (String × FinalEntry))
deriving DecidableEq

/-- The `__main__` control flow: load, exit early on empty data, compute
returns (`[compute_return(s) for s in data]`), rank, aggregate. A `none`
from `compute_return` or an error from `read_csv_safe` is an uncaught
exception, i.e. `crashed`. -/
def main_model (filename : String) (src : Source) : MainOutcome :=
  match read_csv_safe filename src with
  | Except.error _ => MainOutcome.crashed
  | Except.ok out =>
      if out.1 = [] then MainOutcome.earlyExit 0
      else
        match out.1.mapM compute_return with
        | none => MainOutcome.crashed
        | some computed =>
            MainOutcome.completed (process_all computed)
              (aggregrate_by_sector (process_all computed))

/-! ## Helper lemmas -/

/-- The comparison handed to the sort is transitive. -/
theorem ret_le_trans : ∀ a b c : CStock,
    (decide (b.Return ≤ a.Return)) = true →
    (decide (c.Return ≤ b.Return)) = true →
    (decide (c.Return ≤ a.Return)) = true := by
  intro a b c hab hbc
  simp only [decide_eq_true_eq] at *
  exact le_trans hbc hab

/-- The comparison handed to the sort is total. -/
theorem ret_le_total : ∀ a b : CStock,
    (decide (b.Return ≤ a.Return) || decide (a.Return ≤ b.Return)) = true := by
  intro a b
  simp only [Bool.or_eq_true, decide_eq_true_eq]
  exact le_total _ _

/-- `dropWhile` is idempotent. -/
theorem dropWhile_idem (p : Char → Bool) (l : List Char) :
    (l.dropWhile p).dropWhile p = l.dropWhile p := by
  induction l with
  | nil => rfl
  | cons a t ih =>
      by_cases h : p a
      · simp [List.dropWhile_cons, h, ih]
      · simp [List.dropWhile_cons, h]

/-- A prefix of a list whose head does not satisfy `p` is untouched by
`dropWhile p`. -/
theorem dropWhile_take (p : Char → Bool) (l : List Char) (k : ℕ)
    (h : l.dropWhile p = l) : (l.take k).dropWhile p = l.take k := by
  cases l with
  | nil => simp
  | cons a t =>
      have ha : ¬ p a = true := by
        intro hpa
        rw [List.dropWhile_cons, if_pos hpa] at h
        have hlen := congrArg List.length h
        have hle := (List.dropWhile_sublist (l := t) p).length_le
        simp at hlen
        omega
      cases k with
      | zero => simp
      | succ k => simp [List.dropWhile_cons, ha]

/-- Stripping whitespace from both ends is idempotent. -/
theorem stripList_idem (l : List Char) : stripList (stripList l) = stripList l := by
  have hm : (l.dropWhile Char.isWhitespace).dropWhile Char.isWhitespace =
      l.dropWhile Char.isWhitespace := dropWhile_idem _ l
  have hpre : ((l.dropWhile Char.isWhitespace).reverse.dropWhile
      Char.isWhitespace).reverse <+: l.dropWhile Char.isWhitespace := by
    have hsuf := List.dropWhile_suffix
      (l := (l.dropWhile Char.isWhitespace).reverse) Char.isWhitespace
    rw [← List.reverse_prefix] at hsuf
    simpa using hsuf
  have htake := List.prefix_iff_eq_take.mp hpre
  have hstep1 : (stripList l).dropWhile Char.isWhitespace = stripList l := by
    simp only [stripList]
    rw [htake]
    exact dropWhile_take _ _ _ hm
  have hstep2 : (stripList l).reverse.dropWhile Char.isWhitespace =
      (stripList l).reverse := by
    simp only [stripList, List.reverse_reverse]
    exact dropWhile_idem _ _
  conv_lhs => rw [stripList]
  rw [hstep1, hstep2, List.reverse_reverse]

/-- Python's `strip()` is idempotent. -/
theorem pyStrip_idem (s : String) : pyStrip (pyStrip s) = pyStrip s :=
  congrArg String.mk (stripList_idem s.data)

/-- What a successful `parseRow` yields: positive parsed prices, and the
trimmed `Stock`/`Sector` texts. -/
theorem parseRow_some (r : Row) (s : StockRec) (h : (parseRow r).1 = some s) :
    0 < s.PriceStart ∧ 0 < s.PriceEnd ∧
    s.Stock = pyStrip r.Stock ∧ s.Sector = pyStrip r.Sector := by
  rcases r with ⟨st, se, ps, pe⟩
  cases ps <;> cases pe <;>
    simp only [parseRow] at h <;>
    try exact absurd h (by simp)
  split_ifs at h with hc
  simp only [Option.some_inj] at h
  rw [← h]
  exact ⟨hc.1, hc.2, rfl, rfl⟩

/-- Every record the Loader admits has positive prices and carries trimmed
(`strip()`-stable) `Stock`/`Sector` texts. -/
theorem loadRows_inv (rows : List Row) (s : StockRec) (h : s ∈ (loadRows rows).1) :
    0 < s.PriceStart ∧ 0 < s.PriceEnd ∧
    pyStrip s.Stock = s.Stock ∧ pyStrip s.Sector = s.Sector := by
  induction rows with
  | nil => simp [loadRows] at h
  | cons r rest ih =>
      rw [loadRows] at h
      rcases List.mem_append.mp h with h1 | h2
      · cases hp : (parseRow r).1 with
        | none => rw [hp] at h1; simp at h1
        | some s' =>
            rw [hp] at h1
            simp at h1
            obtain ⟨hps, hpe, hst, hse⟩ := parseRow_some r s' hp
            subst h1
            exact ⟨hps, hpe, by rw [hst, pyStrip_idem],
                   by rw [hse, pyStrip_idem]⟩
      · exact ih h2

/-- The Loader's output lists are the row-wise `filterMap`s of `parseRow`. -/
theorem loadRows_eq (rows : List Row) :
    loadRows rows = (rows.filterMap (fun r => (parseRow r).1),
                     rows.filterMap (fun r => (parseRow r).2)) := by
  induction rows with
  | nil => rfl
  | cons r rest ih =>
      rw [loadRows, ih]
      simp only [List.filterMap_cons]
      cases hp : (parseRow r).1 <;> cases hq : (parseRow r).2 <;> simp [hp, hq]

/-! ## C1: the Return Calculator -/

/-- C1. For every Record produced by the Loader (`priceStart > 0`), the
Return Calculator succeeds (no failure path) and sets `returnPct` exactly to
`round(((priceEnd - priceStart) / priceStart) * 100, 2)`, leaving the other
fields unchanged. -/
theorem compute_return_correct (s : StockRec) (h : 0 < s.PriceStart) :
    compute_return s =
      some ⟨s.Stock, s.Sector, s.PriceStart, s.PriceEnd,
            round2 (((s.PriceEnd - s.PriceStart) / s.PriceStart) * 100)⟩ := by
  unfold compute_return
  rw [if_neg (ne_of_gt h)]

/-- Witness for C1 at the concrete record `("AAA", "Tech", 100, 110)`. -/
theorem compute_return_correct_witness :
    (0 : ℚ) < 100 ∧
      compute_return ⟨"AAA", "Tech", 100, 110⟩ =
        some ⟨"AAA", "Tech", 100, 110, round2 (((110 - 100) / 100) * 100)⟩ :=
  ⟨by norm_num, compute_return_correct ⟨"AAA", "Tech", 100, 110⟩ (by norm_num)⟩

/-! ## C2: the Ranker -/

/-- C2. The Ranker's output is a permutation of the input, has the same
length, is sorted non-increasing by `returnPct`, and an empty input yields an
empty output. -/
theorem process_all_correct (data : List CStock) :
    (process_all data).Perm data ∧
    (process_all data).length = data.length ∧
    (process_all data).Pairwise (fun a b => b.Return ≤ a.Return) ∧
    process_all ([] : List CStock) = [] := by
  refine ⟨List.mergeSort_perm data _, List.length_mergeSort data, ?_, List.mergeSort_nil⟩
  have h := List.sorted_mergeSort ret_le_trans ret_le_total data
  exact h.imp (fun hab => of_decide_eq_true hab)

/-! ## C10: stability of the Ranker -/

/-- C10. The Ranker is stable: records with any given `returnPct` value `q`
appear in the output in the same relative order as in the input (their
subsequence is preserved by the sort). Since `process_all` is a pure
function of its input, the ranked output is in particular deterministic
across runs with identical input. -/
theorem process_all_stable (data : List CStock) (q : ℚ) :
    (process_all data).filter (fun r => r.Return = q) =
      data.filter (fun r => r.Return = q) := by
  classical
  have hpair : (data.filter (fun r => decide (r.Return = q))).Pairwise
      (fun a b => (decide (b.Return ≤ a.Return)) = true) := by
    apply List.pairwise_of_forall_mem_list
    intro a ha b hb
    have ha' := of_decide_eq_true (List.mem_filter.mp ha).2
    have hb' := of_decide_eq_true (List.mem_filter.mp hb).2
    simp [ha', hb']
  have hsub : List.Sublist (data.filter (fun r => decide (r.Return = q)))
      (process_all data) :=
    List.sublist_mergeSort ret_le_trans ret_le_total hpair (List.filter_sublist data)
  have heq : (data.filter (fun r => decide (r.Return = q))).filter
      (fun r => decide (r.Return = q)) = data.filter (fun r => decide (r.Return = q)) :=
    List.filter_eq_self.mpr (fun a ha => (List.mem_filter.mp ha).2)
  have hsub2 : List.Sublist (data.filter (fun r => decide (r.Return = q)))
      ((process_all data).filter (fun r => decide (r.Return = q))) := by
    have h2 := hsub.filter (fun r => decide (r.Return = q))
    rwa [heq] at h2
  have hperm : ((process_all data).filter (fun r => decide (r.Return = q))).Perm
      (data.filter (fun r => decide (r.Return = q))) :=
    (List.mergeSort_perm data _).filter _
  exact (hsub2.eq_of_length hperm.length_eq.symm).symm

/-! ## C4: row-level filtering of the Loader -/

/-- C4. On a readable source, a data row contributes a record exactly when
its `PriceStart` and `PriceEnd` fields are non-empty, both parse as numbers,
and both parsed values are strictly positive; the output is the in-order
`filterMap` of the rows (so source row order is preserved); rows with an
empty price are skipped with the missing-prices diagnostic, rows with a
non-empty but non-numeric price with the invalid-row diagnostic, and rows
whose parsed prices fail the positivity rule are skipped silently. -/
theorem read_csv_safe_row_filter (filename : String) (rows : List Row) :
    (read_csv_safe filename (Source.ok rows) =
      Except.ok (rows.filterMap (fun r => (parseRow r).1),
                 rows.filterMap (fun r => (parseRow r).2))) ∧
    (∀ r : Row, (∃ s, (parseRow r).1 = some s) ↔
      (∃ sp ep, r.PriceStart = Cell.num sp ∧ r.PriceEnd = Cell.num ep ∧
        0 < sp ∧ 0 < ep)) ∧
    (∀ r : Row, (r.PriceStart = Cell.empty ∨ r.PriceEnd = Cell.empty) →
      (parseRow r).2 = some (Diag.missingPrices r)) ∧
    (∀ r : Row, r.PriceStart ≠ Cell.empty → r.PriceEnd ≠ Cell.empty →
      (r.PriceStart = Cell.invalid ∨ r.PriceEnd = Cell.invalid) →
      (parseRow r).2 = some (Diag.invalidRow r)) ∧
    (∀ (r : Row) (sp ep : ℚ), r.PriceStart = Cell.num sp →
      r.PriceEnd = Cell.num ep → ¬(0 < sp ∧ 0 < ep) →
      parseRow r = (none, none)) := by
  refine ⟨by rw [read_csv_safe, loadRows_eq rows], ?_, ?_, ?_, ?_⟩
  · intro r
    rcases r with ⟨st, se, ps, pe⟩
    cases ps <;> cases pe <;> simp [parseRow]
    constructor
    · rintro ⟨s, hs⟩
      split_ifs at hs with hc
      exact hc
    · intro hc
      rw [if_pos hc]
      exact ⟨_, rfl⟩
  · intro r hr
    rcases r with ⟨st, se, ps, pe⟩
    rcases hr with hr | hr <;> simp only at hr <;> subst hr
    · simp [parseRow]
    · cases ps <;> simp [parseRow]
  · intro r hps hpe hr
    rcases r with ⟨st, se, ps, pe⟩
    simp only at hps hpe
    rcases hr with hr | hr <;> simp only at hr <;> subst hr
    · cases pe
      · exact absurd rfl hpe
      · simp [parseRow]
      · simp [parseRow]
    · cases ps
      · exact absurd rfl hps
      · simp [parseRow]
      · simp [parseRow]
  · intro r sp ep hps hpe hneg
    rcases r with ⟨st, se, ps, pe⟩
    simp only at hps hpe
    subst hps; subst hpe
    simp [parseRow, if_neg hneg]

/-- Witness for C4: Scenario A of the spec — rows AAA/Tech/100/110,
BBB/Health/50/45, and CCC/Tech with an empty start price; the Loader yields
the first two records in source order and one missing-prices diagnostic. -/
theorem read_csv_safe_row_filter_witness :
    read_csv_safe "data.csv" (Source.ok
      [⟨"AAA", "Tech", Cell.num 100, Cell.num 110⟩,
       ⟨"BBB", "Health", Cell.num 50, Cell.num 45⟩,
       ⟨"CCC", "Tech", Cell.empty, Cell.num 80⟩]) =
      Except.ok
        ([⟨"AAA", "Tech", 100, 110⟩, ⟨"BBB", "Health", 50, 45⟩],
         [Diag.missingPrices ⟨"CCC", "Tech", Cell.empty, Cell.num 80⟩]) := by
  rw [(read_csv_safe_row_filter "data.csv"
    [⟨"AAA", "Tech", Cell.num 100, Cell.num 110⟩,
     ⟨"BBB", "Health", Cell.num 50, Cell.num 45⟩,
     ⟨"CCC", "Tech", Cell.empty, Cell.num 80⟩]).1]
  exact congrArg Except.ok (by decide)

/-! ## C9: invariants of admitted records -/

/-- C9 counterexample. The Loader never validates the `Stock` text: a row
with an empty `Stock` field and valid positive prices is admitted, so an
admitted Record can have an empty name, contrary to the claimed non-empty
name invariant. -/
theorem loader_admits_empty_name :
    (loadRows [⟨"", "Tech", Cell.num 100, Cell.num 110⟩]).1.map
      (fun s => s.Stock) = [""] := by decide

/-- C9 (amended). Every Record admitted past loading satisfies
`priceStart > 0` and `priceEnd > 0`, and its name is the `strip()`-trimmed
`Stock` text — which is not validated and may be empty. -/
theorem loadRows_admitted_inv (rows : List Row) (s : StockRec)
    (h : s ∈ (loadRows rows).1) :
    0 < s.PriceStart ∧ 0 < s.PriceEnd ∧ pyStrip s.Stock = s.Stock :=
  ⟨(loadRows_inv rows s h).1, (loadRows_inv rows s h).2.1,
   (loadRows_inv rows s h).2.2.1⟩

/-- Witness for C9 (amended) at a concrete row with padded name text. -/
theorem loadRows_admitted_inv_witness :
    ((⟨"AAPL", "Tech", 100, 110⟩ : StockRec) ∈
        (loadRows [⟨" AAPL ", "Tech", Cell.num 100, Cell.num 110⟩]).1) ∧
      (0 < (100 : ℚ) ∧ 0 < (110 : ℚ) ∧ pyStrip "AAPL" = "AAPL") :=
  ⟨by decide,
   loadRows_admitted_inv [⟨" AAPL ", "Tech", Cell.num 100, Cell.num 110⟩]
     ⟨"AAPL", "Tech", 100, 110⟩ (by decide)⟩

/-! ## C5: the Loader's error boundary -/

/-- C5 counterexample. The claim says the Loader never raises past its
boundary whatever the reason the source cannot be opened or read; but the
code catches only `FileNotFoundError`, so an open failure such as
`PermissionError` (modelled by `Source.ioError`) propagates to the caller
instead of yielding an empty sequence. -/
theorem read_csv_safe_ioError_raises :
    read_csv_safe "data.csv" Source.ioError = Except.error () := rfl

/-- On rows whose four fields are all present, the raw reader agrees with
the well-formed-row reader: short rows are the only raw per-row error path. -/
theorem loadRawRows_map_rowToRaw (wf : List Row) :
    loadRawRows (wf.map rowToRaw) = Except.ok (loadRows wf) := by
  induction wf with
  | nil => rfl
  | cons r rest ih =>
      rw [List.map_cons, loadRawRows,
          show parseRawRow (rowToRaw r) = Except.ok (parseRow r) from rfl,
          ih, loadRows]

/-- The raw reader raises past the Loader's boundary exactly when some data
row is missing its `Stock` or `Sector` field (the uncaught `AttributeError`
of `None.strip()`). -/
theorem loadRawRows_error_iff (rows : List RawRow) :
    loadRawRows rows = Except.error () ↔
      ∃ r ∈ rows, r.Stock = none ∨ r.Sector = none := by
  induction rows with
  | nil => simp [loadRawRows]
  | cons r rest ih =>
      rw [loadRawRows]
      cases hs : r.Stock with
      | none =>
          rw [show parseRawRow r = Except.error () from by
            simp [parseRawRow, hs]]
          simp
          exact Or.inl (Or.inl hs)
      | some st =>
          cases hse : r.Sector with
          | none =>
              rw [show parseRawRow r = Except.error () from by
                simp [parseRawRow, hs, hse]]
              simp
              exact Or.inl (Or.inr hse)
          | some se =>
              rw [show parseRawRow r =
                  Except.ok (parseRow ⟨st, se, r.PriceStart, r.PriceEnd⟩) from by
                simp [parseRawRow, hs, hse]]
              cases hrec : loadRawRows rest with
              | error e =>
                  obtain rfl : e = () := rfl
                  constructor
                  · intro _
                    obtain ⟨x, hx, hxn⟩ := ih.mp hrec
                    exact ⟨x, List.mem_cons_of_mem r hx, hxn⟩
                  · intro _
                    rfl
              | ok q =>
                  constructor
                  · intro hcontra
                    exact absurd hcontra (by simp)
                  · rintro ⟨x, hx, hxn⟩
                    rcases List.mem_cons.mp hx with rfl | hx0
                    · rcases hxn with hxn | hxn
                      · rw [hs] at hxn
                        exact absurd hxn (by simp)
                      · rw [hse] at hxn
                        exact absurd hxn (by simp)
                    · have hcon := ih.mpr ⟨x, hx0, hxn⟩
                      rw [hrec] at hcon
                      exact absurd hcon (by simp)

/-- C5 (amended). The Loader absorbs a missing file (`FileNotFoundError`):
it emits a diagnostic naming the source and returns an empty sequence. On a
readable source, the per-row failures routed through
`except (ValueError, KeyError)` and the empty-price check are absorbed with
diagnostics, and a source whose data rows all carry their four fields never
raises; but a short data row whose `Stock` or `Sector` field is missing
(`csv.DictReader`'s `restval = None`) raises an uncaught `AttributeError`
that aborts the whole load, and open/read failures other than file-not-found
(permission, I/O) likewise propagate past the boundary. -/
theorem read_csv_safe_boundary (filename : String) (rows : List RawRow)
    (wf : List Row) :
    (read_csv_safe_raw filename RawSource.notFound =
      Except.ok ([], [Diag.fileNotFound filename])) ∧
    ((∀ r ∈ rows, r.Stock ≠ none ∧ r.Sector ≠ none) →
      ∃ out, read_csv_safe_raw filename (RawSource.ok rows) = Except.ok out) ∧
    (read_csv_safe_raw filename (RawSource.ok rows) = Except.error () ↔
      ∃ r ∈ rows, r.Stock = none ∨ r.Sector = none) ∧
    (read_csv_safe_raw filename RawSource.ioError = Except.error ()) ∧
    (read_csv_safe_raw filename (RawSource.ok (wf.map rowToRaw)) =
      Except.ok (loadRows wf)) := by
  refine ⟨rfl, ?_, ?_, rfl, ?_⟩
  · intro hpresent
    cases hload : loadRawRows rows with
    | error e =>
        obtain rfl : e = () := rfl
        obtain ⟨r, hr, hnone⟩ := (loadRawRows_error_iff rows).mp hload
        obtain ⟨h1, h2⟩ := hpresent r hr
        rcases hnone with hnone | hnone
        · exact absurd hnone h1
        · exact absurd hnone h2
    | ok out => exact ⟨out, by rw [read_csv_safe_raw, hload]⟩
  · rw [show read_csv_safe_raw filename (RawSource.ok rows)
        = loadRawRows rows from rfl]
    exact loadRawRows_error_iff rows
  · rw [show read_csv_safe_raw filename (RawSource.ok (wf.map rowToRaw))
        = loadRawRows (wf.map rowToRaw) from rfl]
    exact loadRawRows_map_rowToRaw wf

/-- Witness for C5 (amended): a concrete readable source whose single row
carries all four fields loads without raising, while the same row with its
`Sector` field missing (a short data row) makes the load raise. -/
theorem read_csv_safe_boundary_witness :
    (∃ out, read_csv_safe_raw "data.csv"
      (RawSource.ok [⟨some "AAA", some "Tech", Cell.num 100, Cell.num 110⟩]) =
      Except.ok out) ∧
    (read_csv_safe_raw "data.csv"
      (RawSource.ok [⟨some "AAA", none, Cell.num 100, Cell.num 110⟩]) =
      Except.error () ↔
      ∃ r ∈ [(⟨some "AAA", none, Cell.num 100, Cell.num 110⟩ : RawRow)],
        r.Stock = none ∨ r.Sector = none) :=
  ⟨(read_csv_safe_boundary "data.csv"
      [⟨some "AAA", some "Tech", Cell.num 100, Cell.num 110⟩] []).2.1
      (by decide),
   (read_csv_safe_boundary "data.csv"
      [⟨some "AAA", none, Cell.num 100, Cell.num 110⟩] []).2.2.1⟩

/-! ## C6: the empty-data early exit -/

/-- C6 counterexample. The empty-data early exit is not the only
process-terminating condition: an open failure other than file-not-found
(e.g. a permission error) is an uncaught exception, which also terminates
the process — abnormally, not via the early exit. -/
theorem main_ioError_terminates_abnormally :
    main_model "data.csv" Source.ioError = MainOutcome.crashed ∧
    MainOutcome.crashed ≠ MainOutcome.earlyExit 0 := ⟨rfl, by decide⟩

/-- C6 (amended). If loading does not raise and the Loader yields zero
records, the program terminates immediately via the explicit `exit()` with
termination code 0 (non-error), performing no return computation, ranking,
aggregation, report, or export; this is the only explicit early exit, but an
uncaught read exception is a further process-terminating condition. -/
theorem main_empty_early_exit (filename : String) (src : Source)
    (out : List StockRec × List Diag)
    (hread : read_csv_safe filename src = Except.ok out) (hempty : out.1 = []) :
    main_model filename src = MainOutcome.earlyExit 0 := by
  unfold main_model
  rw [hread]
  simp [hempty]

/-- Witness for C6 at a concrete missing file: the Loader returns no records
and the program exits early with code 0. -/
theorem main_empty_early_exit_witness :
    main_model "data.csv" Source.notFound = MainOutcome.earlyExit 0 :=
  main_empty_early_exit "data.csv" Source.notFound
    ([], [Diag.fileNotFound "data.csv"]) rfl rfl

/-! ## C3: the Sector Aggregator -/

/-- The effect of folding one record into the summary dict on looking up a
key: the folded sector's entry is updated (or created), all other keys are
untouched. -/
theorem addStock_find (acc : List (String × Entry)) (sec : String) (ret : ℚ)
    (key : String) :
    (addStock acc sec ret).find? (fun p => p.1 = key) =
      if key = sec then
        match acc.find? (fun p => p.1 = sec) with
        | some p => some (p.1, ⟨p.2.total + ret, p.2.count + 1⟩)
        | none => some (sec, ⟨0 + ret, 0 + 1⟩)
      else acc.find? (fun p => p.1 = key) := by
  induction acc with
  | nil =>
      by_cases h : key = sec
      · subst h
        simp [addStock]
      · rw [if_neg h, List.find?_nil]
        show List.find? _ [(sec, (⟨0 + ret, 0 + 1⟩ : Entry))] = none
        rw [show [(sec, (⟨0 + ret, 0 + 1⟩ : Entry))]
              = (sec, (⟨0 + ret, 0 + 1⟩ : Entry)) :: [] from rfl]
        rw [List.find?_cons_of_neg]
        · exact List.find?_nil
        · simp
          exact fun hh => absurd hh.symm h
  | cons p rest ih =>
      obtain ⟨k, e⟩ := p
      by_cases hk : k = sec
      · subst hk
        rw [show addStock ((k, e) :: rest) k ret
              = (k, ⟨e.total + ret, e.count + 1⟩) :: rest by simp [addStock]]
        by_cases h : key = k
        · subst h
          rw [if_pos rfl]
          rw [List.find?_cons_of_pos rest (by simp)]
          rw [List.find?_cons_of_pos rest (by simp)]
        · rw [if_neg h]
          rw [List.find?_cons_of_neg rest (by simp; exact fun hh => absurd hh.symm h)]
          rw [List.find?_cons_of_neg rest (by simp; exact fun hh => absurd hh.symm h)]
      · rw [show addStock ((k, e) :: rest) sec ret
              = (k, e) :: addStock rest sec ret by simp [addStock, hk]]
        by_cases h : key = k
        · subst h
          rw [if_neg hk]
          rw [List.find?_cons_of_pos (addStock rest sec ret) (by simp)]
          rw [List.find?_cons_of_pos rest (by simp)]
        · rw [List.find?_cons_of_neg (addStock rest sec ret)
                (by simp; exact fun hh => absurd hh.symm h)]
          rw [ih]
          by_cases hks : key = sec
          · rw [if_pos hks, if_pos hks]
            rw [List.find?_cons_of_neg rest (by simp; exact fun hh => absurd hh hk)]
          · rw [if_neg hks, if_neg hks]
            rw [List.find?_cons_of_neg rest (by simp; exact fun hh => absurd hh.symm h)]

/-- `sectorCount` over a cons. -/
theorem sectorCount_cons (s : CStock) (rest : List CStock) (sec : String) :
    sectorCount (s :: rest) sec =
      if s.Sector = sec then sectorCount rest sec + 1 else sectorCount rest sec := by
  simp only [sectorCount, List.filter_cons]
  by_cases h : s.Sector = sec
  · simp [h]
  · simp [h]

/-- `sectorTotal` over a cons. -/
theorem sectorTotal_cons (s : CStock) (rest : List CStock) (sec : String) :
    sectorTotal (s :: rest) sec =
      if s.Sector = sec then s.Return + sectorTotal rest sec
      else sectorTotal rest sec := by
  simp only [sectorTotal, List.filter_cons]
  by_cases h : s.Sector = sec
  · simp [h]
  · simp [h]

/-- Looking up a sector in the fully folded summary: starting from `acc`,
its entry accumulates exactly the count and return-sum of the data records
with that sector. -/
theorem foldl_addStock_find (data : List CStock) :
    ∀ (acc : List (String × Entry)) (sec : String),
    (data.foldl (fun a s => addStock a s.Sector s.Return) acc).find?
        (fun p => p.1 = sec) =
      match acc.find? (fun p => p.1 = sec) with
      | some p => some (p.1, ⟨p.2.total + sectorTotal data sec,
                              p.2.count + sectorCount data sec⟩)
      | none =>
          if sectorCount data sec = 0 then none
          else some (sec, ⟨sectorTotal data sec, sectorCount data sec⟩) := by
  induction data with
  | nil =>
      intro acc sec
      cases hf : acc.find? (fun p => p.1 = sec) with
      | none => simp [sectorCount, sectorTotal, hf]
      | some p => simp [sectorCount, sectorTotal, hf]
  | cons s rest ih =>
      intro acc sec
      rw [List.foldl_cons, ih (addStock acc s.Sector s.Return) sec,
          addStock_find acc s.Sector s.Return sec,
          sectorCount_cons, sectorTotal_cons]
      by_cases hs : s.Sector = sec
      · rw [if_pos hs, if_pos hs, if_pos (hs.symm)]
        cases hf : acc.find? (fun p => p.1 = s.Sector) with
        | none =>
            rw [hs] at hf
            rw [hf]
            simp [Nat.succ_ne_zero]
            exact ⟨hs, by omega⟩
        | some p =>
            rw [hs] at hf
            rw [hf]
            simp
            exact ⟨by ring, by omega⟩
      · rw [if_neg hs, if_neg hs, if_neg (fun hh => hs hh.symm)]

/-- The keys after folding one record are the old keys plus the folded
sector. -/
theorem addStock_keys_mem (acc : List (String × Entry)) (sec : String) (ret : ℚ)
    (x : String) :
    x ∈ (addStock acc sec ret).map Prod.fst ↔
      x ∈ acc.map Prod.fst ∨ x = sec := by
  induction acc with
  | nil => simp [addStock]
  | cons p rest ih =>
      obtain ⟨k, e⟩ := p
      by_cases hk : k = sec
      · subst hk
        simp [addStock]
        tauto
      · simp [addStock, hk, ih]
        tauto

/-- Folding one record preserves key uniqueness of the summary dict. -/
theorem addStock_keys_nodup (acc : List (String × Entry)) (sec : String) (ret : ℚ)
    (h : (acc.map Prod.fst).Nodup) :
    ((addStock acc sec ret).map Prod.fst).Nodup := by
  induction acc with
  | nil => simp [addStock]
  | cons p rest ih =>
      obtain ⟨k, e⟩ := p
      simp only [List.map_cons, List.nodup_cons] at h
      by_cases hk : k = sec
      · subst hk
        rw [show addStock ((k, e) :: rest) k ret
              = (k, ⟨e.total + ret, e.count + 1⟩) :: rest by simp [addStock]]
        simp only [List.map_cons, List.nodup_cons]
        exact h
      · simp only [addStock, if_neg hk, List.map_cons, List.nodup_cons]
        refine ⟨?_, ih h.2⟩
        rw [addStock_keys_mem]
        rintro (hmem | rfl)
        · exact h.1 hmem
        · exact hk rfl

/-- The summary dict built by the Aggregator has unique keys (it models a
Python dict). -/
theorem foldl_addStock_keys_nodup (data : List CStock) :
    ∀ acc : List (String × Entry), (acc.map Prod.fst).Nodup →
    ((data.foldl (fun a s => addStock a s.Sector s.Return) acc).map
      Prod.fst).Nodup := by
  induction data with
  | nil => exact fun acc h => h
  | cons s rest ih => exact fun acc h => ih _ (addStock_keys_nodup _ _ _ h)

/-- In an association list with unique keys, membership of a pair is the
same as `find?` on its key returning it. -/
theorem mem_iff_find_of_nodup {β : Type} (l : List (String × β)) (sec : String)
    (b : β) (h : (l.map Prod.fst).Nodup) :
    (sec, b) ∈ l ↔ l.find? (fun p => p.1 = sec) = some (sec, b) := by
  induction l with
  | nil => simp
  | cons p rest ih =>
      obtain ⟨k, e⟩ := p
      simp only [List.map_cons, List.nodup_cons] at h
      by_cases hk : k = sec
      · subst hk
        rw [List.find?_cons_of_pos rest (by simp)]
        simp only [List.mem_cons, Option.some_inj, Prod.mk.injEq, true_and]
        constructor
        · rintro (rfl | hmem)
          · rfl
          · exact absurd (List.mem_map.mpr ⟨(k, b), hmem, rfl⟩) h.1
        · rintro rfl
          exact Or.inl rfl
      · rw [List.find?_cons_of_neg rest (by simp; exact fun hh => absurd hh hk)]
        rw [← ih h.2]
        simp only [List.mem_cons, Prod.mk.injEq]
        constructor
        · rintro (⟨h1, h2⟩ | hmem)
          · exact absurd h1.symm hk
          · exact hmem
        · exact fun hmem => Or.inr hmem

/-- A sector has a non-zero count exactly when it occurs in the input. -/
theorem sectorCount_ne_zero_iff (data : List CStock) (sec : String) :
    sectorCount data sec ≠ 0 ↔ sec ∈ data.map (fun s => s.Sector) := by
  rw [sectorCount, Ne, List.length_eq_zero, List.filter_eq_nil_iff]
  simp only [List.mem_map, decide_eq_true_eq, not_forall]
  constructor
  · rintro ⟨s, hs, hsec⟩
    simp at hsec
    exact ⟨s, hs, hsec⟩
  · rintro ⟨s, hs, hsec⟩
    exact ⟨s, hs, by simp [hsec]⟩

/-- C3. The Sector Aggregator's output contains exactly the categories
occurring in the input; for each such category, its `count` is the number of
input records with that category (exact, case-sensitive text equality), its
`total` is the sum of their `returnPct` values, and its `averageReturn` is
`round(totalReturn / count, 2)`; every entry has `count > 0`, so the
division by zero of the finalization loop cannot occur. -/
theorem aggregrate_by_sector_spec (data : List CStock) (sec : String) :
    ((∃ fe, (sec, fe) ∈ aggregrate_by_sector data) ↔
        sec ∈ data.map (fun s => s.Sector)) ∧
    (∀ fe, (sec, fe) ∈ aggregrate_by_sector data →
        0 < fe.count ∧
        fe.count = sectorCount data sec ∧
        fe.total = sectorTotal data sec ∧
        fe.avg_return = round2 (fe.total / (fe.count : ℚ))) := by
  have hnodup : ((data.foldl (fun a s => addStock a s.Sector s.Return) []).map
      Prod.fst).Nodup := foldl_addStock_keys_nodup data [] (by simp)
  have hfind := foldl_addStock_find data [] sec
  rw [List.find?_nil] at hfind
  constructor
  · constructor
    · rintro ⟨fe, hmem⟩
      obtain ⟨p, hp, hfp⟩ := List.mem_map.mp hmem
      have hp1 : p.1 = sec := by
        have h1 := congrArg Prod.fst hfp
        simpa using h1
      have hpmem : (sec, p.2) ∈
          data.foldl (fun a s => addStock a s.Sector s.Return) [] := by
        rw [show (sec, p.2) = p from by rw [← hp1]]
        exact hp
      have hsome := (mem_iff_find_of_nodup _ sec p.2 hnodup).mp hpmem
      rw [hfind] at hsome
      by_cases hc : sectorCount data sec = 0
      · rw [if_pos hc] at hsome
        exact absurd hsome (by simp)
      · exact (sectorCount_ne_zero_iff data sec).mp hc
    · intro hmem
      have hc := (sectorCount_ne_zero_iff data sec).mpr hmem
      rw [if_neg hc] at hfind
      have hsmem := List.mem_of_find?_eq_some hfind
      exact ⟨_, List.mem_map.mpr ⟨_, hsmem, rfl⟩⟩
  · intro fe hmem
    obtain ⟨p, hp, hfp⟩ := List.mem_map.mp hmem
    have hp1 : p.1 = sec := by
      have h1 := congrArg Prod.fst hfp
      simpa using h1
    have hpmem : (sec, p.2) ∈
        data.foldl (fun a s => addStock a s.Sector s.Return) [] := by
      rw [show (sec, p.2) = p from by rw [← hp1]]
      exact hp
    have hsome := (mem_iff_find_of_nodup _ sec p.2 hnodup).mp hpmem
    rw [hfind] at hsome
    by_cases hc : sectorCount data sec = 0
    · rw [if_pos hc] at hsome
      exact absurd hsome (by simp)
    · rw [if_neg hc] at hsome
      have hp2 : p.2 = ⟨sectorTotal data sec, sectorCount data sec⟩ :=
        (congrArg Prod.snd (Option.some_inj.mp hsome)).symm
      have hfe : fe = ⟨p.2.total, p.2.count, round2 (p.2.total / (p.2.count : ℚ))⟩ := by
        have h2 := congrArg Prod.snd hfp
        simpa using h2.symm
      rw [hfe, hp2]
      exact ⟨Nat.pos_of_ne_zero hc, rfl, rfl, rfl⟩
/-- Witness for C3 at one concrete record: the Tech sector is present with
count 1, total 10, and average round2(10/1). -/
theorem aggregrate_by_sector_spec_witness :
    ((∃ fe, ("Tech", fe) ∈ aggregrate_by_sector
        [⟨"AAA", "Tech", 100, 110, 10⟩]) ↔
      "Tech" ∈ ([⟨"AAA", "Tech", 100, 110, 10⟩] : List CStock).map
        (fun s => s.Sector)) ∧
    (∀ fe, ("Tech", fe) ∈ aggregrate_by_sector [⟨"AAA", "Tech", 100, 110, 10⟩] →
      0 < fe.count ∧
      fe.count = sectorCount [⟨"AAA", "Tech", 100, 110, 10⟩] "Tech" ∧
      fe.total = sectorTotal [⟨"AAA", "Tech", 100, 110, 10⟩] "Tech" ∧
      fe.avg_return = round2 (fe.total / (fe.count : ℚ))) :=
  aggregrate_by_sector_spec [⟨"AAA", "Tech", 100, 110, 10⟩] "Tech"

/-! ## C7: the Calculator is a pure frame-preserving transformation -/

/-- C7. In this pure embedding, mutation-freedom is expressed functionally:
the Calculator's output record agrees with its input on every field other
than the attached `Return` (so the record is "mutated" exactly once, to
attach `returnPct`), and the Ranker returns the very same records (a
permutation), so no later pipeline stage produces a modified record — the
Aggregator, Reporter and Exporter only read them. -/
theorem calculator_frame (s : StockRec) (c : CStock) (data : List CStock)
    (h : compute_return s = some c) :
    c.Stock = s.Stock ∧ c.Sector = s.Sector ∧
    c.PriceStart = s.PriceStart ∧ c.PriceEnd = s.PriceEnd ∧
    c.Return = round2 (((s.PriceEnd - s.PriceStart) / s.PriceStart) * 100) ∧
    (process_all data).Perm data := by
  unfold compute_return at h
  split_ifs at h
  simp only [Option.some_inj] at h
  rw [← h]
  exact ⟨rfl, rfl, rfl, rfl, rfl, List.mergeSort_perm data _⟩

/-- Witness for C7 at the record `("AAA", "Tech", 100, 110)` and the empty
ranking input. -/
theorem calculator_frame_witness :
    (compute_return ⟨"AAA", "Tech", 100, 110⟩ =
      some ⟨"AAA", "Tech", 100, 110, round2 (((110 - 100) / 100) * 100)⟩) ∧
    (⟨"AAA", "Tech", 100, 110, round2 (((110 - 100) / 100) * 100)⟩ : CStock).Stock =
      (⟨"AAA", "Tech", 100, 110⟩ : StockRec).Stock ∧
    (process_all ([] : List CStock)).Perm [] :=
  ⟨by unfold compute_return; rw [if_neg (by norm_num : ¬((100 : ℚ) = 0))],
   (calculator_frame ⟨"AAA", "Tech", 100, 110⟩
      ⟨"AAA", "Tech", 100, 110, round2 (((110 - 100) / 100) * 100)⟩ []
      (by unfold compute_return; rw [if_neg (by norm_num : ¬((100 : ℚ) = 0))])).1,
   (calculator_frame ⟨"AAA", "Tech", 100, 110⟩
      ⟨"AAA", "Tech", 100, 110, round2 (((110 - 100) / 100) * 100)⟩ []
      (by unfold compute_return; rw [if_neg (by norm_num : ¬((100 : ℚ) = 0))])).2.2.2.2.2⟩

/-! ## C8: the export/reload round trip -/

/-- Mapping `compute_return` over loader output yields records satisfying
the pipeline invariant `goodC`. -/
theorem mapM_compute_return_inv (l : List StockRec) :
    ∀ out : List CStock,
    (∀ s ∈ l, 0 < s.PriceStart ∧ 0 < s.PriceEnd ∧
      pyStrip s.Stock = s.Stock ∧ pyStrip s.Sector = s.Sector) →
    l.mapM compute_return = some out → ∀ c ∈ out, goodC c := by
  induction l with
  | nil =>
      intro out _ hm c hc
      rw [show (([] : List StockRec).mapM compute_return) = some [] from rfl] at hm
      simp only [Option.some_inj] at hm
      rw [← hm] at hc
      simp at hc
  | cons s t ih =>
      intro out hinv hm c hc
      rw [List.mapM_cons] at hm
      cases hs : compute_return s with
      | none => rw [hs] at hm; simp at hm
      | some c0 =>
          rw [hs] at hm
          cases ht : t.mapM compute_return with
          | none => rw [ht] at hm; simp at hm
          | some out0 =>
              rw [ht] at hm
              have hm' : c0 :: out0 = out := by simpa using hm
              rw [← hm'] at hc
              rcases List.mem_cons.mp hc with rfl | hc0
              · obtain ⟨h1, h2, h3, h4⟩ := hinv s (by simp)
                unfold compute_return at hs
                rw [if_neg (ne_of_gt h1)] at hs
                simp only [Option.some_inj] at hs
                rw [← hs]
                exact ⟨h1, h2, h3, h4, rfl⟩
              · exact ih out0 (fun x hx => hinv x (List.mem_cons_of_mem s hx))
                  ht c hc0

/-- Reloading an exported record set through the Loader succeeds on every
row and reproduces the `(name, category, priceStart, priceEnd)` projections
in order, with no diagnostics. -/
theorem loadRows_export_rows (l : List CStock) (hl : ∀ c ∈ l, goodC c) :
    loadRows (export_rows l) =
      (l.map (fun c => (⟨c.Stock, c.Sector, c.PriceStart, c.PriceEnd⟩ : StockRec)),
       []) := by
  induction l with
  | nil => rfl
  | cons c t ih =>
      obtain ⟨h1, h2, h3, h4, h5⟩ := hl c (by simp)
      have hrow : parseRow ⟨c.Stock, c.Sector, Cell.num c.PriceStart,
          Cell.num c.PriceEnd⟩ =
          (some ⟨c.Stock, c.Sector, c.PriceStart, c.PriceEnd⟩, none) := by
        simp only [parseRow]
        rw [if_pos ⟨h1, h2⟩, h3, h4]
      rw [show export_rows (c :: t) =
            (⟨c.Stock, c.Sector, Cell.num c.PriceStart, Cell.num c.PriceEnd⟩ : Row)
              :: export_rows t from rfl,
          loadRows, hrow, ih (fun x hx => hl x (List.mem_cons_of_mem c hx))]
      simp

/-- Recomputing the returns of the reloaded projections reproduces the
exported records exactly. -/
theorem mapM_compute_return_export (l : List CStock) (hl : ∀ c ∈ l, goodC c) :
    (l.map (fun c => (⟨c.Stock, c.Sector, c.PriceStart, c.PriceEnd⟩ : StockRec))).mapM
      compute_return = some l := by
  induction l with
  | nil => rfl
  | cons c t ih =>
      obtain ⟨h1, _, _, _, h5⟩ := hl c (by simp)
      rw [List.map_cons, List.mapM_cons,
          ih (fun x hx => hl x (List.mem_cons_of_mem c hx))]
      have hc : compute_return ⟨c.Stock, c.Sector, c.PriceStart, c.PriceEnd⟩ =
          some c := by
        unfold compute_return
        rw [if_neg (ne_of_gt h1)]
        simp only [Option.some_inj]
        show (⟨c.Stock, c.Sector, c.PriceStart, c.PriceEnd, _⟩ : CStock) = c
        rw [← h5]
      rw [hc]
      rfl

/-- C8. Round trip: for a record set loaded from any readable source and
computed by the Calculator, exporting the ranked set and re-parsing the
exported file through the Loader yields exactly the ranked sequence of
`(name, category, priceStart, priceEnd)` tuples (in order, no diagnostics),
and recomputing `returnPct` on the re-parsed records reproduces the exported
records — hence the exported `Return` column values. -/
theorem export_roundtrip (filename : String) (rows : List Row)
    (computed : List CStock)
    (h : ((loadRows rows).1).mapM compute_return = some computed) :
    read_csv_safe filename (Source.ok (export_rows (process_all computed))) =
      Except.ok ((process_all computed).map
        (fun c => (⟨c.Stock, c.Sector, c.PriceStart, c.PriceEnd⟩ : StockRec)),
        []) ∧
    ((process_all computed).map
        (fun c => (⟨c.Stock, c.Sector, c.PriceStart, c.PriceEnd⟩ : StockRec))).mapM
      compute_return = some (process_all computed) := by
  have hcomp : ∀ c ∈ computed, goodC c :=
    mapM_compute_return_inv (loadRows rows).1 computed
      (fun s hs => loadRows_inv rows s hs) h
  have hrank : ∀ c ∈ process_all computed, goodC c := by
    intro c hc
    exact hcomp c (((List.mergeSort_perm computed _).mem_iff).mp hc)
  constructor
  · rw [show read_csv_safe filename
          (Source.ok (export_rows (process_all computed))) =
        Except.ok (loadRows (export_rows (process_all computed))) from rfl,
        loadRows_export_rows (process_all computed) hrank]
  · exact mapM_compute_return_export (process_all computed) hrank

/-- Witness for C8 at a one-row source (the computed return value is kept in
its `round2` form). -/
theorem export_roundtrip_witness :
    (((loadRows [⟨"AAA", "Tech", Cell.num 100, Cell.num 110⟩]).1).mapM
        compute_return =
      some [⟨"AAA", "Tech", 100, 110, round2 (((110 - 100) / 100) * 100)⟩]) ∧
    (read_csv_safe "out.csv" (Source.ok (export_rows
        (process_all [⟨"AAA", "Tech", 100, 110,
          round2 (((110 - 100) / 100) * 100)⟩]))) =
      Except.ok ((process_all [⟨"AAA", "Tech", 100, 110,
          round2 (((110 - 100) / 100) * 100)⟩]).map
        (fun c => (⟨c.Stock, c.Sector, c.PriceStart, c.PriceEnd⟩ : StockRec)),
        []) ∧
    ((process_all [⟨"AAA", "Tech", 100, 110,
          round2 (((110 - 100) / 100) * 100)⟩]).map
        (fun c => (⟨c.Stock, c.Sector, c.PriceStart, c.PriceEnd⟩ : StockRec))).mapM
      compute_return =
        some (process_all [⟨"AAA", "Tech", 100, 110,
          round2 (((110 - 100) / 100) * 100)⟩])) :=
  ⟨rfl,
   export_roundtrip "out.csv" [⟨"AAA", "Tech", Cell.num 100, Cell.num 110⟩]
     [⟨"AAA", "Tech", 100, 110, round2 (((110 - 100) / 100) * 100)⟩] rfl⟩

end StockAnalysis
